import Mathlib

/-
Verification of the typescript-monads-chaining library.

The library chains fallible operations: once a value matches one of the
caller-supplied "nullish" markers, every later step is skipped and the
value propagates unchanged.  We shallowly embed the runtime behaviour of
`src/helpers.ts` (isNullish), `src/monad.ts` (bind, pipe, monad, monadRun,
monadSetup) and `src/monadAsync.ts` (bindAsync, pipeAsync, monadAsync,
monadAsyncRun, monadAsyncSetup) over an inductive model of JavaScript
values, and prove the specified properties about them.
-/

namespace Chaining

/-- Model of the JavaScript values the library manipulates at runtime:
primitives, arrays and plain objects (field order preserved, as in JS). -/
inductive JSVal : Type where
  | null : JSVal
  | undefined : JSVal
  | bool (b : Bool) : JSVal
  | num (n : Int) : JSVal
  | str (s : String) : JSVal
  | arr (elems : List JSVal) : JSVal
  | obj (fields : List (String × JSVal)) : JSVal

/-- JS `typeof x === "object"`: true for `null`, arrays and objects. -/
def typeofIsObject : JSVal → Bool
  | JSVal.null => true
  | JSVal.arr _ => true
  | JSVal.obj _ => true
  | _ => false

/-- JS strict equality `===` on the modelled values.  Primitives compare by
value.  Two arrays/objects compare by reference in JS; the embedding has no
object identity, and the library only applies `===` when the left operand is
not an object (the object case is routed to serialized comparison), so the
object/object case is modelled as `false` (distinct references). -/
def strictEq : JSVal → JSVal → Bool
  | JSVal.null, JSVal.null => true
  | JSVal.undefined, JSVal.undefined => true
  | JSVal.bool a, JSVal.bool b => a == b
  | JSVal.num a, JSVal.num b => a == b
  | JSVal.str a, JSVal.str b => a == b
  | _, _ => false

/-- JSON string quoting.  Escaping of control characters and quotes is
elided: all strings appearing in the development are plain. -/
def jsonQuote (s : String) : String := "\"" ++ s ++ "\""

mutual

/-- `JSON.stringify`: `none` models the JS result `undefined` (for a
top-level `undefined`).  Object fields whose value serializes to
`undefined` are dropped; array elements that do become `"null"`.
Field order is preserved, exactly as `JSON.stringify` does. -/
def jsonStringify : JSVal → Option String
  | JSVal.null => some "null"
  | JSVal.undefined => none
  | JSVal.bool b => some (cond b "true" "false")
  | JSVal.num n => some (toString n)
  | JSVal.str s => some (jsonQuote s)
  | JSVal.arr elems =>
      some ("[" ++ String.intercalate "," (jsonStringifyElems elems) ++ "]")
  | JSVal.obj fields =>
      some ("\x7b" ++ String.intercalate "," (jsonStringifyFields fields) ++ "\x7d")

/-- Serialized forms of array elements (`undefined` becomes `"null"`). -/
def jsonStringifyElems : List JSVal → List String
  | [] => []
  | v :: t => (jsonStringify v).getD "null" :: jsonStringifyElems t

/-- Serialized `key:value` forms of object fields, dropping fields whose
value does not serialize. -/
def jsonStringifyFields : List (String × JSVal) → List String
  | [] => []
  | (k, v) :: t =>
      match jsonStringify v with
      | none => jsonStringifyFields t
      | some s => (jsonQuote k ++ ":" ++ s) :: jsonStringifyFields t

end

/-- The per-marker test inside `isNullish` (src/helpers.ts): a marker that
is not `null` and has `typeof === "object"` is compared by equality of
JSON serializations; any other marker by strict equality. -/
def nullishMatch (argument nullish : JSVal) : Bool :=
  if (!strictEq nullish JSVal.null) && typeofIsObject nullish then
    jsonStringify nullish == jsonStringify argument
  else
    strictEq nullish argument

/-- `isNullish` from src/helpers.ts: `nullishTypes.some (marker => ...)`. -/
def isNullish (argument : JSVal) (nullishTypes : List JSVal) : Bool :=
  nullishTypes.any (nullishMatch argument)

/-- User functions as the sync chain sees them: current value plus the
extra ("rest") arguments, producing the next value. -/
def SyncCb : Type := JSVal → List JSVal → JSVal

/-- `bind` from src/monad.ts: return a nullish first argument unchanged,
otherwise invoke the callback on it together with the rest arguments. -/
def bind (callback : SyncCb) (nullishTypes : List JSVal)
    (firstArgument : JSVal) (rest : List JSVal) : JSVal :=
  if isNullish firstArgument nullishTypes then firstArgument
  else callback firstArgument rest

/-- Instrumented `bind`: same value, plus whether the callback was invoked.
The source performs the invocation exactly when the guard fails. -/
def bindT (callback : SyncCb) (nullishTypes : List JSVal)
    (firstArgument : JSVal) (rest : List JSVal) : JSVal × Bool :=
  if isNullish firstArgument nullishTypes then (firstArgument, false)
  else (callback firstArgument rest, true)

/-- A sync chain step.  In the source a step is the record
`{ value, pipe: pipe(value, nullishTypes) }`; the closure state of
`pipe(value, nullishTypes)` is exactly this pair, so the step is modelled
by it. -/
structure Step : Type where
  value : JSVal
  nullishTypes : List JSVal

/-- A continuation call on a sync step (`pipe(prev, nullishTypes)(cb, ...rest)`
in src/monad.ts): the new value is `bind cb nullishTypes prev rest` and the
new step carries it with the same marker set. -/
def Step.pipe (s : Step) (callback : SyncCb) (rest : List JSVal) : Step :=
  ⟨bind callback s.nullishTypes s.value rest, s.nullishTypes⟩

/-- `monad` from src/monad.ts: initial step holding the first argument. -/
def monad (firstArgument : JSVal) (nullishTypes : List JSVal) : Step :=
  ⟨firstArgument, nullishTypes⟩

/-- `monadRun` from src/monad.ts: fix the marker set to `[undefined]` and
perform the first continuation immediately. -/
def monadRun (callback : SyncCb) (firstArgument : JSVal)
    (rest : List JSVal) : Step :=
  (monad firstArgument [JSVal.undefined]).pipe callback rest

/-- `monadSetup` from src/monad.ts: fix a marker set, then initialize a
chain and perform the first continuation. -/
def monadSetup (nullishTypes : List JSVal) (callback : SyncCb)
    (firstArgument : JSVal) (rest : List JSVal) : Step :=
  (monad firstArgument nullishTypes).pipe callback rest

/-- One recorded continuation call: the user function and its extra
arguments. -/
def SCall : Type := SyncCb × List JSVal

/-- Running a sync chain: fold the recorded continuation calls over a step.
This unrolls the self-referential step objects of the source, where each
continuation call yields the next step. -/
def chainSteps (s : Step) : List SCall → Step
  | [] => s
  | (cb, r) :: more => chainSteps (s.pipe cb r) more

/-- Instrumented sync chain: final value together with how many user
functions were invoked along the way. -/
def chainT (nullishTypes : List JSVal) (v : JSVal) : List SCall → JSVal × Nat
  | [] => (v, 0)
  | (cb, r) :: more =>
      let p := bindT cb nullishTypes v r
      let q := chainT nullishTypes p.1 more
      (q.1, (cond p.2 1 0) + q.2)

/-- Plain left-to-right composition of the recorded calls, with no nullish
checking: the spec's "composition of all user functions applied
left-to-right to the initial value". -/
def composeCalls (v : JSVal) : List SCall → JSVal
  | [] => v
  | (cb, r) :: more => composeCalls (cb v r) more

/-- "No intermediate value is nullish": the input of every stage of the
chain (the initial value and each produced value that feeds a further
call) escapes the nullish check. -/
def noNullishInputs (nullishTypes : List JSVal) (v : JSVal) : List SCall → Bool
  | [] => true
  | (cb, r) :: more =>
      !isNullish v nullishTypes && noNullishInputs nullishTypes (cb v r) more

/-- A value that is either immediate or a promise; `SP.pend a` is a JS
promise that settles to `a`.  JS promises never nest, so one constructor
level suffices. -/
inductive SP (α : Type) : Type where
  | imm (a : α) : SP α
  | pend (a : α) : SP α

/-- The settled value: `await` for a promise, the value itself otherwise.
This is the `if (x instanceof Promise) x = await x` unwrapping step. -/
def resolveSP {α : Type} : SP α → α
  | SP.imm a => a
  | SP.pend a => a

/-- `Promise.resolve`: wraps an immediate value, passes a promise through
unchanged (JS flattens). -/
def promiseResolve {α : Type} : SP α → SP α
  | SP.imm a => SP.pend a
  | SP.pend a => SP.pend a

/-- Whether a value is a (single-level) pending computation. -/
def isPend {α : Type} : SP α → Bool
  | SP.imm _ => false
  | SP.pend _ => true

/-- User functions as the async chain sees them: they may return an
immediate value or a promise. -/
def AsyncCb : Type := JSVal → List JSVal → SP JSVal

/-- `bindAsync` from src/monadAsync.ts: await the first argument if it is a
promise, short-circuit on nullish, otherwise invoke the callback.  Being an
`async` function its result is always a promise; returning the callback's
result adopts (flattens) a returned promise, hence `resolveSP` on it. -/
def bindAsync (callback : AsyncCb) (nullishTypes : List JSVal)
    (firstArgument : SP JSVal) (rest : List JSVal) : SP JSVal :=
  let unwrappedFirst := resolveSP firstArgument
  if isNullish unwrappedFirst nullishTypes then SP.pend unwrappedFirst
  else SP.pend (resolveSP (callback unwrappedFirst rest))

/-- Instrumented `bindAsync`: same promise, plus whether the callback was
invoked. -/
def bindAsyncT (callback : AsyncCb) (nullishTypes : List JSVal)
    (firstArgument : SP JSVal) (rest : List JSVal) : SP JSVal × Bool :=
  let unwrappedFirst := resolveSP firstArgument
  if isNullish unwrappedFirst nullishTypes then (SP.pend unwrappedFirst, false)
  else (SP.pend (resolveSP (callback unwrappedFirst rest)), true)

/-- An async chain step.  In the source it is
`{ value: Promise.resolve(raw), pipe: pipeAsync(raw, nullishTypes) }`
where `raw` is the possibly-pending current value held by the closure;
the step is modelled by that closure state. -/
structure StepA : Type where
  raw : SP JSVal
  nullishTypes : List JSVal

/-- The `.value` a consumer reads: `Promise.resolve` of the held value. -/
def StepA.value (s : StepA) : SP JSVal := promiseResolve s.raw

/-- A continuation call on an async step
(`pipeAsync(prev, nullishTypes)(cb, ...rest)` in src/monadAsync.ts): the
next step holds the promise produced by `bindAsync`. -/
def StepA.pipe (s : StepA) (callback : AsyncCb) (rest : List JSVal) : StepA :=
  ⟨bindAsync callback s.nullishTypes s.raw rest, s.nullishTypes⟩

/-- `monadAsync` from src/monadAsync.ts: initial async step holding the
first argument (exposed as `Promise.resolve(firstArgument)`). -/
def monadAsync (firstArgument : SP JSVal) (nullishTypes : List JSVal) : StepA :=
  ⟨firstArgument, nullishTypes⟩

/-- `monadAsyncRun` from src/monadAsync.ts. -/
def monadAsyncRun (callback : AsyncCb) (firstArgument : SP JSVal)
    (rest : List JSVal) : StepA :=
  (monadAsync firstArgument [JSVal.undefined]).pipe callback rest

/-- `monadAsyncSetup` from src/monadAsync.ts. -/
def monadAsyncSetup (nullishTypes : List JSVal) (callback : AsyncCb)
    (firstArgument : SP JSVal) (rest : List JSVal) : StepA :=
  (monadAsync firstArgument nullishTypes).pipe callback rest

/-- One recorded async continuation call. -/
def ACall : Type := AsyncCb × List JSVal

/-- Running an async chain of recorded continuation calls. -/
def chainStepsA (s : StepA) : List ACall → StepA
  | [] => s
  | (cb, r) :: more => chainStepsA (s.pipe cb r) more

/-- Instrumented async chain: final held promise together with how many
user functions were invoked. -/
def chainAsyncT (nullishTypes : List JSVal) (p : SP JSVal) :
    List ACall → SP JSVal × Nat
  | [] => (p, 0)
  | (cb, r) :: more =>
      let q := bindAsyncT cb nullishTypes p r
      let t := chainAsyncT nullishTypes q.1 more
      (t.1, (cond q.2 1 0) + t.2)

/-- The synchronous behaviour of an async callback: what it settles to.
An async callback "behaves identically whether invoked synchronously or
asynchronously" exactly when this is the sync function in question. -/
def syncProj : List ACall → List SCall :=
  List.map (fun c => (fun x r => resolveSP (c.1 x r), c.2))

/-- Exception-monad reading of a sync user function: it may raise. -/
def SyncCbE (ε : Type) : Type := JSVal → List JSVal → Except ε JSVal

/-- Exception-monad translation of `bind` (src/monad.ts): the source has
no try/catch, so a raise inside the callback is the result of the call;
the nullish branch never reaches the callback. -/
def bindExc {ε : Type} (callback : SyncCbE ε) (nullishTypes : List JSVal)
    (firstArgument : JSVal) (rest : List JSVal) : Except ε JSVal :=
  if isNullish firstArgument nullishTypes then Except.ok firstArgument
  else callback firstArgument rest

/-- The first argument of `bindAsync` when failure is modelled: either an
immediate value or a promise that settles (resolves or rejects). -/
inductive AsyncArg (ε : Type) : Type where
  | imm (v : JSVal) : AsyncArg ε
  | pend (r : Except ε JSVal) : AsyncArg ε

/-- Possible behaviours of a user function passed to `bindAsync` when
failure is modelled: throw synchronously, return an immediate value, or
return a promise that settles (resolves or rejects). -/
inductive CbRes (ε : Type) : Type where
  | thrown (e : ε) : CbRes ε
  | val (v : JSVal) : CbRes ε
  | prom (r : Except ε JSVal) : CbRes ε

/-- An async user function with failure modelled. -/
def AsyncCbE (ε : Type) : Type := JSVal → List JSVal → CbRes ε

/-- Exception-monad translation of `bindAsync` (src/monadAsync.ts).  The
result is the settlement of the promise the `async` function returns:
awaiting a rejected first argument rethrows; the source has no try/catch,
so a synchronous throw or a rejected promise from the callback rejects the
returned promise; otherwise it resolves to the produced value. -/
def bindAsyncExc {ε : Type} (callback : AsyncCbE ε) (nullishTypes : List JSVal)
    (firstArgument : AsyncArg ε) (rest : List JSVal) : Except ε JSVal :=
  match (match firstArgument with
         | AsyncArg.imm v => Except.ok v
         | AsyncArg.pend r => r) with
  | Except.error e => Except.error e
  | Except.ok unwrappedFirst =>
      if isNullish unwrappedFirst nullishTypes then Except.ok unwrappedFirst
      else
        match callback unwrappedFirst rest with
        | CbRes.thrown e => Except.error e
        | CbRes.val v => Except.ok v
        | CbRes.prom r => r

/-- Unfolding a sync chain over a cons cell. -/
theorem chainSteps_cons (s : Step) (cb : SyncCb) (r : List JSVal)
    (more : List SCall) :
    chainSteps s ((cb, r) :: more) = chainSteps (s.pipe cb r) more := rfl

/-- The marker set is invariant along a sync chain. -/
theorem chainSteps_nullishTypes (calls : List SCall) : ∀ s : Step,
    (chainSteps s calls).nullishTypes = s.nullishTypes := by
  induction calls with
  | nil => intro s; rfl
  | cons c more ih =>
      intro s
      obtain ⟨cb, r⟩ := c
      rw [chainSteps_cons, ih]
      rfl

/-- The value of a sync chain is the value component of the instrumented
chain. -/
theorem chainSteps_value (calls : List SCall) :
    ∀ (nt : List JSVal) (v : JSVal),
    (chainSteps ⟨v, nt⟩ calls).value = (chainT nt v calls).1 := by
  induction calls with
  | nil => intro nt v; rfl
  | cons c more ih =>
      intro nt v
      obtain ⟨cb, r⟩ := c
      show (chainSteps (Step.pipe ⟨v, nt⟩ cb r) more).value = _
      rw [Step.pipe]
      simp only [chainT]
      rw [ih]
      by_cases h : isNullish v nt = true
      · simp [bind, bindT, h]
      · simp [bind, bindT, h]

/-- From a nullish value on, a sync chain keeps the value and performs no
invocations. -/
theorem chainT_nullish (nt : List JSVal) (v : JSVal)
    (h : isNullish v nt = true) :
    ∀ calls : List SCall, chainT nt v calls = (v, 0) := by
  intro calls
  induction calls with
  | nil => rfl
  | cons c more ih =>
      obtain ⟨cb, r⟩ := c
      simp only [chainT, bindT, h, if_pos]
      simpa using ih

/-- From a nullish settled value on, an async chain keeps a promise of
that value and performs no invocations. -/
theorem chainAsyncT_nullish (nt : List JSVal) (v : JSVal)
    (h : isNullish v nt = true) :
    ∀ (calls : List ACall) (p : SP JSVal), resolveSP p = v →
    resolveSP (chainAsyncT nt p calls).1 = v ∧
    (chainAsyncT nt p calls).2 = 0 := by
  intro calls
  induction calls with
  | nil => intro p hp; exact ⟨hp, rfl⟩
  | cons c more ih =>
      intro p hp
      obtain ⟨cb, r⟩ := c
      simp only [chainAsyncT, bindAsyncT, hp, h, if_pos]
      have := ih (SP.pend v) rfl
      simpa using this

/-- An async chain settles to what the sync chain of the settled
behaviours of its callbacks computes. -/
theorem chainAsyncT_resolve (nt : List JSVal) :
    ∀ (calls : List ACall) (p : SP JSVal),
    resolveSP (chainAsyncT nt p calls).1 =
      (chainT nt (resolveSP p) (syncProj calls)).1 := by
  intro calls
  induction calls with
  | nil => intro p; rfl
  | cons c more ih =>
      intro p
      obtain ⟨cb, r⟩ := c
      simp only [chainAsyncT, syncProj, List.map, chainT, bindAsyncT, bindT]
      by_cases h : isNullish (resolveSP p) nt = true
      · simp only [h, if_pos]
        simpa using ih (SP.pend (resolveSP p))
      · simp only [h, Bool.false_eq_true, if_neg, if_false]
        simpa using ih (SP.pend (resolveSP (cb (resolveSP p) r)))

/-- The value component of the instrumented async invoker is the invoker
itself. -/
theorem bindAsyncT_fst (cb : AsyncCb) (nt : List JSVal) (p : SP JSVal)
    (r : List JSVal) : (bindAsyncT cb nt p r).1 = bindAsync cb nt p r := by
  simp only [bindAsyncT, bindAsync]
  split <;> rfl

/-- The value component of the instrumented sync invoker is `bind`. -/
theorem bindT_fst (cb : SyncCb) (nt : List JSVal) (x : JSVal)
    (r : List JSVal) : (bindT cb nt x r).1 = bind cb nt x r := by
  simp only [bindT, bind]
  split <;> rfl

/-- The held promise of an async chain is the value component of the
instrumented async chain, and the marker set is invariant. -/
theorem chainStepsA_raw (calls : List ACall) :
    ∀ (nt : List JSVal) (p : SP JSVal),
    (chainStepsA ⟨p, nt⟩ calls).raw = (chainAsyncT nt p calls).1 ∧
    (chainStepsA ⟨p, nt⟩ calls).nullishTypes = nt := by
  induction calls with
  | nil => intro nt p; exact ⟨rfl, rfl⟩
  | cons c more ih =>
      intro nt p
      obtain ⟨cb, r⟩ := c
      have h := ih nt (bindAsyncT cb nt p r).1
      constructor
      · show (chainStepsA (StepA.pipe ⟨p, nt⟩ cb r) more).raw = _
        rw [StepA.pipe, ← bindAsyncT_fst]
        simp only [chainAsyncT]
        exact h.1
      · show (chainStepsA (StepA.pipe ⟨p, nt⟩ cb r) more).nullishTypes = nt
        rw [StepA.pipe, ← bindAsyncT_fst]
        exact h.2

/-- `Promise.resolve` does not change what a value settles to. -/
theorem resolveSP_promiseResolve {α : Type} (p : SP α) :
    resolveSP (promiseResolve p) = resolveSP p := by
  cases p <;> rfl

/-- A sync chain whose stage inputs all escape the nullish check computes
the plain composition of its calls. -/
theorem chainT_composeCalls (nt : List JSVal) :
    ∀ (calls : List SCall) (v : JSVal), noNullishInputs nt v calls = true →
    (chainT nt v calls).1 = composeCalls v calls := by
  intro calls
  induction calls with
  | nil => intro v _; rfl
  | cons c more ih =>
      intro v h
      obtain ⟨cb, r⟩ := c
      simp only [noNullishInputs, Bool.and_eq_true, Bool.not_eq_true'] at h
      simp only [chainT, bindT, h.1, Bool.false_eq_true, if_false, composeCalls]
      exact ih (cb v r) h.2

/-- With an empty marker set every stage invokes its function and the
chain is the plain composition. -/
theorem chainT_empty_markers :
    ∀ (calls : List SCall) (v : JSVal),
    chainT [] v calls = (composeCalls v calls, calls.length) := by
  intro calls
  induction calls with
  | nil => intro v; rfl
  | cons c more ih =>
      intro v
      obtain ⟨cb, r⟩ := c
      simp only [chainT, bindT, isNullish, List.any_nil, Bool.false_eq_true,
        if_false, composeCalls, List.length_cons, ih, cond_true]
      rw [Nat.add_comm]

/-- Claim C1: for every chain (sync or async) with a fixed marker set, once
the value held at some stage is nullish, every subsequent stage's value is
identical to it and no user function supplied at later stages is invoked. -/
theorem nullish_propagation (nt : List JSVal) (v : JSVal)
    (h : isNullish v nt = true) :
    (∀ calls : List SCall,
       chainT nt v calls = (v, 0) ∧ (chainSteps ⟨v, nt⟩ calls).value = v) ∧
    (∀ p : SP JSVal, resolveSP p = v → ∀ calls : List ACall,
       resolveSP (chainAsyncT nt p calls).1 = v ∧
       (chainAsyncT nt p calls).2 = 0) := by
  constructor
  · intro calls
    refine ⟨chainT_nullish nt v h calls, ?_⟩
    rw [chainSteps_value, chainT_nullish nt v h calls]
  · intro p hp calls
    exact chainAsyncT_nullish nt v h calls p hp

/-- Witness for C1 at marker set `[null]`, value `null`, and concrete
two-call sync and one-call async chains. -/
theorem nullish_propagation_witness :
    chainT [JSVal.null] JSVal.null
      [(fun _ _ => JSVal.num 5, []), (fun x _ => x, [])] = (JSVal.null, 0) ∧
    resolveSP (chainAsyncT [JSVal.null] (SP.imm JSVal.null)
      [(fun _ _ => SP.pend (JSVal.num 7), [])]).1 = JSVal.null :=
  ⟨((nullish_propagation [JSVal.null] JSVal.null rfl).1
      [(fun _ _ => JSVal.num 5, []), (fun x _ => x, [])]).1,
   ((nullish_propagation [JSVal.null] JSVal.null rfl).2
      (SP.imm JSVal.null) rfl [(fun _ _ => SP.pend (JSVal.num 7), [])]).1⟩

/-- Claim C2: when no stage input of a chain is nullish, the final value is
the left-to-right composition of all user functions (with their extra
arguments) applied to the initial value, for the sync chain and, settled,
for the async chain. -/
theorem composition_no_nullish (nt : List JSVal) (v : JSVal)
    (calls : List SCall) (acalls : List ACall)
    (h1 : noNullishInputs nt v calls = true)
    (h2 : noNullishInputs nt v (syncProj acalls) = true) :
    (chainSteps (monad v nt) calls).value = composeCalls v calls ∧
    resolveSP (chainAsyncT nt (SP.imm v) acalls).1 =
      composeCalls v (syncProj acalls) := by
  constructor
  · rw [monad, chainSteps_value]
    exact chainT_composeCalls nt calls v h1
  · rw [chainAsyncT_resolve]
    exact chainT_composeCalls nt (syncProj acalls) v h2

/-- Witness for C2 on a concrete two-call sync chain and a one-call async
chain over marker set `[null]`. -/
theorem composition_no_nullish_witness :
    (chainSteps (monad (JSVal.num 1) [JSVal.null])
      [(fun x _ => JSVal.arr [x], []),
       (fun x r => JSVal.arr (x :: r), [JSVal.num 2])]).value =
      composeCalls (JSVal.num 1)
        [(fun x _ => JSVal.arr [x], []),
         (fun x r => JSVal.arr (x :: r), [JSVal.num 2])] ∧
    resolveSP (chainAsyncT [JSVal.null] (SP.imm (JSVal.num 1))
      [(fun _ _ => SP.pend (JSVal.num 3), [])]).1 =
      composeCalls (JSVal.num 1)
        (syncProj [(fun _ _ => SP.pend (JSVal.num 3), [])]) :=
  composition_no_nullish [JSVal.null] (JSVal.num 1)
    [(fun x _ => JSVal.arr [x], []),
     (fun x r => JSVal.arr (x :: r), [JSVal.num 2])]
    [(fun _ _ => SP.pend (JSVal.num 3), [])] rfl rfl

/-- Claim C3: `isNullish v M` is true exactly when some marker in `M`
matches `v`, where a non-null object-typed marker (object or array)
matches by equality of JSON serialized forms and every other marker by
strict equality. -/
theorem isNullish_iff_marker_match (v : JSVal) (M : List JSVal) :
    (isNullish v M = true ↔ ∃ m ∈ M, nullishMatch v m = true) ∧
    (∀ fields, nullishMatch v (JSVal.obj fields) =
        (jsonStringify (JSVal.obj fields) == jsonStringify v)) ∧
    (∀ elems, nullishMatch v (JSVal.arr elems) =
        (jsonStringify (JSVal.arr elems) == jsonStringify v)) ∧
    nullishMatch v JSVal.null = strictEq JSVal.null v ∧
    nullishMatch v JSVal.undefined = strictEq JSVal.undefined v ∧
    (∀ n : Int, nullishMatch v (JSVal.num n) = strictEq (JSVal.num n) v) ∧
    (∀ s : String, nullishMatch v (JSVal.str s) = strictEq (JSVal.str s) v) ∧
    (∀ b : Bool, nullishMatch v (JSVal.bool b) = strictEq (JSVal.bool b) v) := by
  refine ⟨?_, fun _ => rfl, fun _ => rfl, rfl, rfl, fun _ => rfl,
    fun _ => rfl, fun _ => rfl⟩
  exact List.any_eq_true

/-- Claim C4: `bind` returns a nullish first argument unchanged without
invoking the callback; otherwise it returns exactly the callback applied
to the first argument and the extra arguments (invoking it), and does not
re-check the produced result. -/
theorem bind_shortcircuit_or_invoke (cb : SyncCb) (nt : List JSVal)
    (x : JSVal) (rest : List JSVal) :
    (isNullish x nt = true →
       bind cb nt x rest = x ∧ (bindT cb nt x rest).2 = false) ∧
    (isNullish x nt = false →
       bind cb nt x rest = cb x rest ∧ (bindT cb nt x rest).2 = true) := by
  constructor
  · intro h
    simp [bind, bindT, h]
  · intro h
    simp [bind, bindT, h]

/-- Witness for C4: a nullish first argument short-circuits; a non-nullish
one is passed, with the extra arguments, to the callback — whose result is
returned even when it is itself a marker value. -/
theorem bind_shortcircuit_or_invoke_witness :
    (bind (fun x r => JSVal.arr (x :: r)) [JSVal.null] JSVal.null
       [JSVal.num 3] = JSVal.null) ∧
    (bind (fun x r => JSVal.arr (x :: r)) [JSVal.null] (JSVal.num 2)
       [JSVal.num 3] = JSVal.arr [JSVal.num 2, JSVal.num 3]) ∧
    (bind (fun _ _ => JSVal.null) [JSVal.null] (JSVal.num 2) [] =
       JSVal.null) :=
  ⟨((bind_shortcircuit_or_invoke (fun x r => JSVal.arr (x :: r)) [JSVal.null]
      JSVal.null [JSVal.num 3]).1 rfl).1,
   ((bind_shortcircuit_or_invoke (fun x r => JSVal.arr (x :: r)) [JSVal.null]
      (JSVal.num 2) [JSVal.num 3]).2 rfl).1,
   ((bind_shortcircuit_or_invoke (fun _ _ => JSVal.null) [JSVal.null]
      (JSVal.num 2) []).2 rfl).1⟩

/-- Claim C5: `bindAsync` settles its first argument, applies the sync
invoker's logic to the settled value, and always yields a single-level
pending computation settling to the produced value (a returned pending
computation is collapsed, a synchronous return is wrapped); every async
step's exposed `.value`, including the initializer's, is a single-level
pending computation even for immediate inputs. -/
theorem bindAsync_resolve_flatten (cb : AsyncCb) (nt : List JSVal)
    (first : SP JSVal) (rest : List JSVal) :
    bindAsync cb nt first rest =
      SP.pend (bind (fun x r => resolveSP (cb x r)) nt (resolveSP first) rest) ∧
    isPend (bindAsync cb nt first rest) = true ∧
    (∀ s : StepA, isPend (StepA.value (s.pipe cb rest)) = true) ∧
    (∀ x : SP JSVal, isPend (StepA.value (monadAsync x nt)) = true) := by
  refine ⟨?_, ?_, ?_, ?_⟩
  · simp only [bindAsync, bind]
    split <;> rfl
  · simp only [bindAsync]
    split <;> rfl
  · intro s
    show isPend (promiseResolve (bindAsync cb s.nullishTypes s.raw rest)) = true
    simp only [bindAsync]
    split <;> rfl
  · intro x
    show isPend (promiseResolve x) = true
    cases x <;> rfl

/-- Claim C6: an async chain whose user functions settle to the behaviour
of given sync functions yields, once settled, the same final value as the
sync chain built from those sync functions, for every initial value. -/
theorem async_sync_equivalence (nt : List JSVal) (v : JSVal)
    (acalls : List ACall) :
    resolveSP (chainStepsA (monadAsync (SP.imm v) nt) acalls).value =
      (chainSteps (monad v nt) (syncProj acalls)).value := by
  show resolveSP (promiseResolve (chainStepsA ⟨SP.imm v, nt⟩ acalls).raw) = _
  rw [resolveSP_promiseResolve, (chainStepsA_raw acalls nt (SP.imm v)).1,
    chainAsyncT_resolve, monad, chainSteps_value]
  rfl

/-- Claim C7: the core traps no user-function failure: a raise inside the
sync callback is the result of `bind` unmodified; the async invoker
surfaces a rejected first argument, a synchronous throw, or a rejected
promise from the callback as a rejection of its returned promise; and a
nullish first argument yields a successful result with no callback
involvement. -/
theorem no_error_trapping {ε : Type} (cb : SyncCbE ε) (acb : AsyncCbE ε)
    (nt : List JSVal) (x : JSVal) (rest : List JSVal) (e : ε) :
    (isNullish x nt = false → cb x rest = Except.error e →
       bindExc cb nt x rest = Except.error e) ∧
    (isNullish x nt = true → bindExc cb nt x rest = Except.ok x) ∧
    bindAsyncExc acb nt (AsyncArg.pend (Except.error e)) rest =
      Except.error e ∧
    (isNullish x nt = false → acb x rest = CbRes.thrown e →
       bindAsyncExc acb nt (AsyncArg.imm x) rest = Except.error e) ∧
    (isNullish x nt = false → acb x rest = CbRes.prom (Except.error e) →
       bindAsyncExc acb nt (AsyncArg.imm x) rest = Except.error e) ∧
    (isNullish x nt = true →
       bindAsyncExc acb nt (AsyncArg.imm x) rest = Except.ok x) := by
  refine ⟨?_, ?_, rfl, ?_, ?_, ?_⟩
  · intro h hcb
    simp [bindExc, h, hcb]
  · intro h
    simp [bindExc, h]
  · intro h hcb
    simp [bindAsyncExc, h, hcb]
  · intro h hcb
    simp [bindAsyncExc, h, hcb]
  · intro h
    simp [bindAsyncExc, h]

/-- Witness for C7 with error code `0 : Nat`, throwing callbacks, marker
set `[null]`, non-nullish argument `1` and nullish argument `null`. -/
theorem no_error_trapping_witness :
    bindExc (fun _ _ => Except.error 0) [JSVal.null] (JSVal.num 1) [] =
      Except.error 0 ∧
    bindExc (fun _ _ => Except.error 0) [JSVal.null] JSVal.null [] =
      Except.ok JSVal.null ∧
    bindAsyncExc (fun _ _ => CbRes.thrown 0) [JSVal.null] (AsyncArg.imm (JSVal.num 1))
      [] = Except.error 0 ∧
    bindAsyncExc (fun _ _ => CbRes.prom (Except.error 0)) [JSVal.null]
      (AsyncArg.imm (JSVal.num 1)) [] = Except.error 0 ∧
    bindAsyncExc (fun _ _ => CbRes.thrown 0) [JSVal.null]
      (AsyncArg.imm JSVal.null) [] = Except.ok JSVal.null :=
  ⟨(no_error_trapping (fun _ _ => Except.error 0) (fun _ _ => CbRes.thrown 0)
      [JSVal.null] (JSVal.num 1) [] 0).1 rfl rfl,
   (no_error_trapping (fun _ _ => Except.error 0) (fun _ _ => CbRes.thrown 0)
      [JSVal.null] JSVal.null [] 0).2.1 rfl,
   (no_error_trapping (fun _ _ => Except.error 0) (fun _ _ => CbRes.thrown 0)
      [JSVal.null] (JSVal.num 1) [] 0).2.2.2.1 rfl rfl,
   (no_error_trapping (fun _ _ => Except.error 0)
      (fun _ _ => CbRes.prom (Except.error 0)) [JSVal.null] (JSVal.num 1)
      [] 0).2.2.2.2.1 rfl rfl,
   (no_error_trapping (fun _ _ => Except.error 0) (fun _ _ => CbRes.thrown 0)
      [JSVal.null] JSVal.null [] 0).2.2.2.2.2 rfl⟩

/-- Claim C8: the setup wrappers are sugar for the initializer plus one
continuation call; configured with markers `-1` and `null`, invoking with
first argument `-1` yields value `-1` without invoking the function, and
invoking with `undefined` invokes the function and yields its result. -/
theorem setup_wrappers_sugar :
    (∀ (nt : List JSVal) (cb : SyncCb) (x : JSVal) (rest : List JSVal),
       monadSetup nt cb x rest = (monad x nt).pipe cb rest) ∧
    (∀ (nt : List JSVal) (cb : AsyncCb) (x : SP JSVal) (rest : List JSVal),
       monadAsyncSetup nt cb x rest = (monadAsync x nt).pipe cb rest) ∧
    (∀ (cb : SyncCb) (rest : List JSVal),
       (monadSetup [JSVal.num (-1), JSVal.null] cb (JSVal.num (-1))
           rest).value = JSVal.num (-1) ∧
       (bindT cb [JSVal.num (-1), JSVal.null] (JSVal.num (-1)) rest).2 =
         false ∧
       (monadSetup [JSVal.num (-1), JSVal.null] cb JSVal.undefined
           rest).value = cb JSVal.undefined rest ∧
       (bindT cb [JSVal.num (-1), JSVal.null] JSVal.undefined rest).2 =
         true) ∧
    (∀ (cb : AsyncCb) (rest : List JSVal),
       resolveSP (monadAsyncSetup [JSVal.num (-1), JSVal.null] cb
           (SP.imm (JSVal.num (-1))) rest).value = JSVal.num (-1) ∧
       resolveSP (monadAsyncSetup [JSVal.num (-1), JSVal.null] cb
           (SP.imm JSVal.undefined) rest).value =
         resolveSP (cb JSVal.undefined rest)) := by
  refine ⟨fun _ _ _ _ => rfl, fun _ _ _ _ => rfl, fun cb rest => ?_,
    fun cb rest => ?_⟩
  · exact ⟨rfl, rfl, rfl, rfl⟩
  · exact ⟨rfl, rfl⟩

/-- Claim C9: with an empty marker set nothing is nullish, so a chain
initialized without markers never short-circuits: every continuation
invokes its user function (the invocation count equals the number of
calls) and the chain computes the plain composition, for any value,
including `undefined` and `null`. -/
theorem empty_markers_never_shortcircuit :
    (∀ v : JSVal, isNullish v [] = false) ∧
    (∀ (v : JSVal) (calls : List SCall),
       (chainT [] v calls).2 = calls.length ∧
       (chainSteps (monad v []) calls).value = composeCalls v calls) ∧
    (∀ (cb : SyncCb) (v : JSVal) (rest : List JSVal),
       bind cb [] v rest = cb v rest) := by
  refine ⟨fun v => rfl, fun v calls => ?_, fun cb v rest => rfl⟩
  constructor
  · rw [chainT_empty_markers]
  · rw [monad, chainSteps_value, chainT_empty_markers]

/-- Claim C10: object markers are matched by equality of JSON
serializations, not structural equality: marker `\x7b\x7d` classifies the
argument `\x7ba: undefined\x7d` as nullish (serialization drops
undefined-valued fields), while two objects with the same fields in
different key orders — structurally equal, their field lists being
permutations — are not matched. -/
theorem json_serialization_matching :
    isNullish (JSVal.obj [("a", JSVal.undefined)]) [JSVal.obj []] = true ∧
    jsonStringify (JSVal.obj [("a", JSVal.undefined)]) =
      jsonStringify (JSVal.obj []) ∧
    List.Perm [("a", JSVal.num 1), ("b", JSVal.num 2)]
      [("b", JSVal.num 2), ("a", JSVal.num 1)] ∧
    isNullish (JSVal.obj [("a", JSVal.num 1), ("b", JSVal.num 2)])
      [JSVal.obj [("b", JSVal.num 2), ("a", JSVal.num 1)]] = false := by
  refine ⟨rfl, rfl, List.Perm.swap _ _ _, ?_⟩
  decide

end Chaining
